import Mathlib

/-!
Shallow embedding of `src/excel_to_json.py` (class `ExcelSurveyTransformer`):
the schema-to-column resolution and value-normalization engine.

Strings are modelled as `List Char` (ASCII fragment of Python `str`); raw
spreadsheet cells as `CellValue` (a missing cell is pandas `NaN`, which is
truthy in Python).  Python regular-expression classes are modelled on the
ASCII range: `\s` is `isPySpace`, `\w` (word character: alphanumeric or
underscore) is `isWordChar`.
-/

namespace ExcelToJson

abbrev Str := List Char

/-- Python `\s` on the ASCII range: space, tab, newline, carriage return,
vertical tab, form feed. -/
def isPySpace (c : Char) : Bool :=
  c == ' ' || c == '\t' || c == '\n' || c == '\r' || c == '\x0b' || c == '\x0c'

/-- Python `\w` on the ASCII range: alphanumeric or underscore. -/
def isWordChar (c : Char) : Bool :=
  c.isAlphanum || c == '_'

/-- Remove leading Python whitespace. -/
def trimLeft (s : Str) : Str := s.dropWhile isPySpace

/-- Remove trailing Python whitespace. -/
def trimRight (s : Str) : Str := (s.reverse.dropWhile isPySpace).reverse

/-- Python `str.strip()`: remove leading and trailing whitespace. -/
def pyStrip (s : Str) : Str := trimRight (trimLeft s)

def toLowerStr (s : Str) : Str := s.map Char.toLower

/-- `re.sub(r'\s+', ' ', s)`: replace every maximal run of whitespace
characters by a single space. -/
def collapseWS : Str → Str
  | [] => []
  | [c] => if isPySpace c then [' '] else [c]
  | c :: d :: rest =>
    if isPySpace c then
      if isPySpace d then collapseWS (d :: rest)
      else ' ' :: d :: collapseWS rest
    else c :: collapseWS (d :: rest)

/-- Digit accumulator for `natChars`; the fuel argument dominates the
number of decimal digits. -/
def natCharsAux : Nat → Nat → List Char → List Char
  | 0, _, acc => acc
  | fuel + 1, n, acc =>
    let d := Nat.digitChar (n % 10)
    if n < 10 then d :: acc else natCharsAux fuel (n / 10) (d :: acc)

/-- Decimal digits of a natural number, as Python `str(n)` renders them. -/
def natChars (n : Nat) : List Char := natCharsAux (n + 1) n []

/-- Python `str` of an integer. -/
def intChars (n : Int) : List Char :=
  if n < 0 then '-' :: natChars n.natAbs else natChars n.toNat

/-- A raw spreadsheet cell as pandas hands it to the engine: `missing` is
the `NaN` a missing cell becomes, otherwise a string or an integer. -/
inductive CellValue where
  | missing
  | str (s : Str)
  | int (n : Int)
  deriving DecidableEq, Repr

/-- Python truthiness (`bool(value)`) of a cell value.  `NaN` is a float
and is truthy; `0` and the empty string are falsy. -/
def pyTruthy : CellValue → Bool
  | .missing => true
  | .str s => !s.isEmpty
  | .int n => n != 0

/-- Python `str(value)`: `str(NaN)` is `"nan"`. -/
def strOfCell : CellValue → Str
  | .missing => ['n', 'a', 'n']
  | .str s => s
  | .int n => intChars n

/-- The placeholder strings `['', 'nan', 'none', '-']` of `_clean_value`. -/
def falsyStrings : List Str :=
  [[], ['n', 'a', 'n'], ['n', 'o', 'n', 'e'], ['-']]

/-- The textual path of `_clean_value`: strip surrounding whitespace,
delete every double quote and backslash, and return `None` when the result
is empty or case-insensitively one of the placeholder strings. -/
def cleanChars (s : Str) : Option Str :=
  let cleaned := (pyStrip s).filter fun c => !(c == '"' || c == '\\')
  if cleaned.isEmpty || falsyStrings.contains (toLowerStr cleaned) then none
  else some cleaned

/-- `_clean_value` (excel_to_json.py lines 39-55): `None` for a missing
cell (`pd.isna`), otherwise the textual cleaning of `str(value)`. -/
def cleanValue (value : CellValue) : Option Str :=
  match value with
  | .missing => none
  | .str s => cleanChars s
  | .int n => cleanChars (intChars n)

/-- `_normalize_question_text` (lines 57-65): empty for falsy input,
otherwise strip, lowercase, collapse whitespace runs to single spaces,
then delete every character that is neither a word character nor
whitespace. -/
def normalizeQuestionText (text : Str) : Str :=
  if text.isEmpty then []
  else
    let normalized := collapseWS (toLowerStr (pyStrip text))
    normalized.filter fun c => isWordChar c || isPySpace c

/-- `a.isPrefixOf`-style check written out: does `a` start `b`? -/
def startsWith : Str → Str → Bool
  | [], _ => true
  | _ :: _, [] => false
  | x :: xs, y :: ys => x == y && startsWith xs ys

/-- Python `a in b` on strings: `a` occurs contiguously inside `b`. -/
def isSubOf (a : Str) : Str → Bool
  | [] => a.isEmpty
  | y :: ys => startsWith a (y :: ys) || isSubOf a ys

/-- Strategy 1 of `_find_column_for_question`: `col.strip() == schema_question`. -/
def matchesExact (q col : Str) : Bool := pyStrip col == q

/-- Strategy 2: the normalized forms are equal. -/
def matchesNorm (q col : Str) : Bool :=
  normalizeQuestionText col == normalizeQuestionText q

/-- Strategy 3: one normalized form occurs inside the other. -/
def matchesContain (q col : Str) : Bool :=
  isSubOf (normalizeQuestionText q) (normalizeQuestionText col) ||
    isSubOf (normalizeQuestionText col) (normalizeQuestionText q)

/-- `_find_column_for_question` (lines 67-88): three loops over the columns
in order, each a fallback for the one before; each loop returns the first
column it matches. -/
def findColumnForQuestion (q : Str) (headers : List Str) : Option Str :=
  match headers.find? (matchesExact q) with
  | some col => some col
  | none =>
    match headers.find? (matchesNorm q) with
    | some col => some col
    | none => headers.find? (matchesContain q)

/-- Python `str.split(';')`: `""` yields `[""]`, separators are not kept. -/
def splitSemi : Str → List Str
  | [] => [[]]
  | c :: rest =>
    match splitSemi rest with
    | [] => [[c]]
    | p :: ps => if c == ';' then [] :: p :: ps else (c :: p) :: ps

/-- `_process_multiple_choice` (lines 90-100): `None` for a falsy value,
otherwise split the textual form on `;`, clean each part, keep the truthy
results, and return `None` in place of an empty list. -/
def processMultipleChoice (value : CellValue) : Option (List Str) :=
  if !pyTruthy value then none
  else
    let parts := (splitSemi (strOfCell value)).map fun part => cleanValue (.str part)
    let cleanParts := parts.filterMap fun part =>
      match part with
      | some s => if s.isEmpty then none else some s
      | none => none
    if cleanParts.isEmpty then none else some cleanParts

/-- The metadata indicator substrings of `_skip_metadata_columns`. -/
def metadataIndicators : List Str :=
  ["id".data, "start time".data, "completion time".data, "email".data,
   "name".data, "timestamp".data, "response id".data, "ip address".data]

/-- `_skip_metadata_columns` (lines 102-108): a column is metadata when its
lowercased header contains one of the indicator substrings. -/
def skipMetadataColumns (colName : Str) : Bool :=
  metadataIndicators.any fun indicator => isSubOf indicator (toLowerStr colName)

/-- A schema question: its key, its canonical text, its declared type. -/
structure Question where
  key : Str
  text : Str
  qtype : Str
  deriving DecidableEq, Repr

/-- A transformed JSON field value. -/
inductive JValue where
  | null
  | jstr (s : Str)
  | jarr (ss : List Str)
  deriving DecidableEq, Repr

/-- One output record: the 1-based `response_id` plus the question fields,
an insertion-ordered mapping as a Python dict. -/
structure OutputRecord where
  respId : Nat
  fields : List (Str × JValue)
  deriving DecidableEq, Repr

/-- `row.get(column_name)`: a row is stored positionally parallel to the
headers; fetching by header name finds the header's index. -/
def getCell (headers : List Str) (row : List CellValue) (col : Str) : CellValue :=
  match headers.findIdx? (· == col) with
  | some i => row.getD i .missing
  | none => .missing

/-- Python dict assignment `d[k] = v`: replace in place when the key is
present, append otherwise. -/
def setField (fields : List (Str × JValue)) (k : Str) (v : JValue) :
    List (Str × JValue) :=
  match fields with
  | [] => [(k, v)]
  | (k', v') :: rest =>
    if k' == k then (k, v) :: rest else (k', v') :: setField rest k v

/-- The type dispatch of `transform` (lines 144-160): `multiple_choice`
goes through `_process_multiple_choice`; `open_text`, `single_choice`,
`identifier` and every unrecognized type through `_clean_value`. -/
def transformValue (qtype : Str) (rawValue : CellValue) : JValue :=
  if qtype == "multiple_choice".data then
    match processMultipleChoice rawValue with
    | some parts => .jarr parts
    | none => .null
  else if qtype == "open_text".data then
    match cleanValue rawValue with
    | some s => .jstr s
    | none => .null
  else if qtype == "single_choice".data then
    match cleanValue rawValue with
    | some s => .jstr s
    | none => .null
  else if qtype == "identifier".data then
    match cleanValue rawValue with
    | some s => .jstr s
    | none => .null
  else
    match cleanValue rawValue with
    | some s => .jstr s
    | none => .null

/-- The body of the inner question loop of `transform` (lines 126-160):
re-resolve the column for the question, then either record `null` (no
column), skip the key entirely (metadata column), or record the
transformed cell value. -/
def processQuestion (headers : List Str) (row : List CellValue)
    (fields : List (Str × JValue)) (q : Question) : List (Str × JValue) :=
  match findColumnForQuestion q.text headers with
  | none => setField fields q.key .null
  | some columnName =>
    if skipMetadataColumns columnName then fields
    else setField fields q.key (transformValue q.qtype (getCell headers row columnName))

/-- One iteration of the row loop of `transform` (lines 120-162):
`response_id` is the 0-based row index plus one. -/
def transformRow (questions : List Question) (headers : List Str)
    (row : List CellValue) (index : Nat) : OutputRecord :=
  { respId := index + 1
    fields := questions.foldl (processQuestion headers row) [] }

/-- `transform` (lines 110-164): one output record per row, in row order.
Column resolution is re-run inside the row loop, exactly as the source
does. -/
def transform (questions : List Question) (headers : List Str)
    (rows : List (List CellValue)) : List OutputRecord :=
  rows.enum.map fun (index, row) => transformRow questions headers row index

/-! Reference definitions written from the specification's words, to be
compared with the definitions above that embed the source. -/

/-- The text normalization exactly as the spec's sentence describes it:
trim, lowercase, collapse whitespace runs to single spaces, then remove
every character that is not alphanumeric and not whitespace. -/
def specNormalize (text : Str) : Str :=
  (collapseWS (toLowerStr (pyStrip text))).filter fun c =>
    c.isAlphanum || isPySpace c

/-- The same sentence amended where the code disagrees: a character that
is not alphanumeric, not an underscore, and not whitespace is removed
(an underscore is kept). -/
def specNormalizeKeepUnderscore (text : Str) : Str :=
  (collapseWS (toLowerStr (pyStrip text))).filter fun c =>
    c.isAlphanum || c == '_' || isPySpace c

/-- The `multiple_choice` pipeline as the spec describes it for a present
value: split the textual form on `;`, clean each part independently, drop
parts that clean to `None`, return the survivors, or `None` when no part
survives. -/
def specMultipleChoice (value : CellValue) : Option (List Str) :=
  let survivors := (splitSemi (strOfCell value)).filterMap
    fun part => cleanValue (.str part)
  if survivors.isEmpty then none else some survivors

/-- The rejected alternative reading in which the whole textual form is
cleaned first and split afterwards, empty parts dropped without a second
cleaning pass. -/
def cleanBeforeSplit (value : CellValue) : Option (List Str) :=
  if !pyTruthy value then none
  else
    match cleanValue value with
    | none => none
    | some s =>
      let parts := (splitSemi s).filter fun p => !p.isEmpty
      if parts.isEmpty then none else some parts

/-- The memoization pass of the spec: resolve every question once against
the fixed header set, keyed by `question_key`. -/
def resolveCache (questions : List Question) (headers : List Str) :
    List (Str × Option Str) :=
  questions.map fun q => (q.key, findColumnForQuestion q.text headers)

/-- The inner question loop of the reference engine: reuse the cached
resolution instead of recomputing it. -/
def processQuestionCached (cache : List (Str × Option Str))
    (headers : List Str) (row : List CellValue)
    (fields : List (Str × JValue)) (q : Question) : List (Str × JValue) :=
  match cache.lookup q.key with
  | none => fields
  | some none => setField fields q.key .null
  | some (some columnName) =>
    if skipMetadataColumns columnName then fields
    else setField fields q.key (transformValue q.qtype (getCell headers row columnName))

/-- The reference engine of the spec: resolution computed once per
question before the row loop and reused for all rows. -/
def transformCached (questions : List Question) (headers : List Str)
    (rows : List (List CellValue)) : List OutputRecord :=
  let cache := resolveCache questions headers
  rows.enum.map fun (index, row) =>
    { respId := index + 1
      fields := questions.foldl (processQuestionCached cache headers row) [] }

/-- The outcome the question loop produces for one question: `some v`
when the loop assigns `v` to the question's key, `none` when it skips the
key (metadata column). -/
def questionOutcome (headers : List Str) (row : List CellValue)
    (q : Question) : Option JValue :=
  match findColumnForQuestion q.text headers with
  | none => some .null
  | some columnName =>
    if skipMetadataColumns columnName then none
    else some (transformValue q.qtype (getCell headers row columnName))

end ExcelToJson

namespace ExcelToJson

example : normalizeQuestionText "  Hello,   World!? ".data = "hello world".data := by decide
example : cleanValue (.str "  \"x\"  ".data) = some ['x'] := by decide
example : cleanValue (.str " NaN ".data) = none := by decide
example : processMultipleChoice (.str "a;b;;  c ".data) = some [['a'], ['b'], ['c']] := by decide
example : processMultipleChoice (.int 0) = none := by decide
example : processMultipleChoice .missing = none := by decide
example : skipMetadataColumns "Your Name?".data = true := by decide
example : findColumnForQuestion "Q1".data ["other".data, " Q1 ".data] = some " Q1 ".data := by decide
example : intChars 0 = ['0'] := by decide
example : intChars (-12) = ['-', '1', '2'] := by decide
example : normalizeQuestionText ['_'] = ['_'] := by decide
example :
    (cleanValue (.str ['"', ' ', 'a', '"'])).bind (fun t => cleanValue (.str t)) =
      some ['a'] := by decide
example : cleanValue (.str ['"', ' ', 'a', '"']) = some [' ', 'a'] := by decide

/-! Helper lemmas. -/

lemma isSubOf_nil (b : Str) : isSubOf [] b = true := by
  induction b with
  | nil => rfl
  | cons y ys ih => simp [isSubOf, startsWith, ih]

lemma dropWhile_head_false {p : Char → Bool} {l : Str} {c : Char} {t : Str}
    (h : l.dropWhile p = c :: t) : p c = false := by
  induction l with
  | nil => simp at h
  | cons a l ih =>
    rw [List.dropWhile_cons] at h
    by_cases hpa : p a = true
    · rw [if_pos hpa] at h
      exact ih h
    · have hb : p a = false := by simpa using hpa
      rw [if_neg (by simp [hb])] at h
      injection h with h1 _
      subst h1
      exact hb

lemma trimRight_eq_rdropWhile (s : Str) : trimRight s = s.rdropWhile isPySpace := rfl

lemma trimRight_idem (s : Str) : trimRight (trimRight s) = trimRight s := by
  simp only [trimRight_eq_rdropWhile]
  exact List.rdropWhile_idempotent isPySpace s

lemma trimLeft_trimRight_trimLeft (l : Str) :
    trimLeft (trimRight (trimLeft l)) = trimRight (trimLeft l) := by
  rcases hm : trimLeft l with _ | ⟨c, t⟩
  · rfl
  · have hpc : isPySpace c = false := dropWhile_head_false hm
    rcases hr : trimRight (c :: t) with _ | ⟨c', t'⟩
    · rfl
    · obtain ⟨u, hu⟩ : trimRight (c :: t) <+: c :: t := by
        rw [trimRight_eq_rdropWhile]; exact List.rdropWhile_prefix _ _
      rw [hr] at hu
      simp only [List.cons_append] at hu
      have hc' : c' = c := by injection hu
      show trimLeft (c' :: t') = c' :: t'
      unfold trimLeft
      rw [List.dropWhile_cons_of_neg (by rw [hc', hpc]; simp)]

lemma pyStrip_idem (s : Str) : pyStrip (pyStrip s) = pyStrip s := by
  unfold pyStrip
  rw [trimLeft_trimRight_trimLeft, trimRight_idem]

lemma mem_of_mem_pyStrip {c : Char} {s : Str} (h : c ∈ pyStrip s) : c ∈ s := by
  unfold pyStrip trimRight trimLeft at h
  rw [List.mem_reverse] at h
  have h2 := List.dropWhile_subset _ h
  rw [List.mem_reverse] at h2
  exact List.dropWhile_subset _ h2

lemma cleanChars_ne_empty {s t : Str} (h : cleanChars s = some t) :
    t.isEmpty = false := by
  simp only [cleanChars] at h
  split at h
  · cases h
  · rename_i hcond
    injection h with h
    subst h
    simp only [Bool.or_eq_true, not_or, Bool.not_eq_true] at hcond
    exact hcond.1

lemma cleanValue_ne_empty {v : CellValue} {s : Str} (h : cleanValue v = some s) :
    s.isEmpty = false := by
  cases v with
  | missing => simp [cleanValue] at h
  | str s' => exact cleanChars_ne_empty h
  | int n => exact cleanChars_ne_empty h

/-! Claim C2: the text normalization. -/

/-- C2, counterexample: the claim says an underscore is removed, but the
code's character class is `\w` (word characters), which keeps the
underscore: on the input `"_"` the code returns `"_"`, not `""`. -/
theorem normalize_underscore_counterexample :
    normalizeQuestionText ['_'] = ['_'] ∧ specNormalize ['_'] = [] ∧
      normalizeQuestionText ['_'] ≠ specNormalize ['_'] := by decide

/-- C2, amended: for every input string, the normalization trims
surrounding whitespace, lowercases, collapses every whitespace run to a
single space, and removes every character that is not alphanumeric, not an
underscore, and not whitespace (an underscore is kept). -/
theorem normalize_matches_amended_spec (text : Str) :
    normalizeQuestionText text = specNormalizeKeepUnderscore text := by
  unfold normalizeQuestionText specNormalizeKeepUnderscore
  by_cases h : text.isEmpty = true
  · have he : text = [] := by simpa using h
    subst he
    simp [pyStrip, trimLeft, trimRight, toLowerStr, collapseWS]
  · rw [if_neg h]
    apply List.filter_congr
    intro c _
    simp [isWordChar, Bool.or_assoc]

/-! Claim C9: idempotence of the scalar cleaning. -/

/-- C9, counterexample: `clean` is not idempotent.  On the four-character
string `" a"` (double quote, space, `a`, double quote) the first pass
strips the quotes and returns `" a"` with a leading space; a second pass
trims that space and returns `"a"`. -/
theorem clean_not_idempotent_counterexample :
    (cleanValue (.str ['"', ' ', 'a', '"'])).bind (fun t => cleanValue (.str t)) ≠
      cleanValue (.str ['"', ' ', 'a', '"']) := by decide

/-- C9, amended: `clean` is idempotent on every string that contains no
double-quote and no backslash character (`clean` of a null value being
null); removing those characters can expose fresh surrounding whitespace,
which only a second pass would trim. -/
theorem clean_idempotent_no_quote_backslash (s : Str)
    (hq : ('"' : Char) ∉ s) (hb : ('\\' : Char) ∉ s) :
    (cleanValue (.str s)).bind (fun t => cleanValue (.str t)) =
      cleanValue (.str s) := by
  have hfil : ∀ u : Str, (∀ c ∈ u, c ∈ s) →
      (u.filter fun c => !(c == '"' || c == '\\')) = u := by
    intro u hu
    apply List.filter_eq_self.mpr
    intro c hc
    have h1 : c ≠ '"' := fun e => hq (e ▸ hu c hc)
    have h2 : c ≠ '\\' := fun e => hb (e ▸ hu c hc)
    simp [h1, h2]
  have hsub : ∀ c ∈ pyStrip s, c ∈ s := fun c hc => mem_of_mem_pyStrip hc
  have hs1 : cleanValue (.str s) =
      if (pyStrip s).isEmpty || falsyStrings.contains (toLowerStr (pyStrip s)) then none
      else some (pyStrip s) := by
    show cleanChars s = _
    simp only [cleanChars]
    rw [hfil _ hsub]
  by_cases hcond :
      ((pyStrip s).isEmpty || falsyStrings.contains (toLowerStr (pyStrip s))) = true
  · rw [hs1, if_pos hcond]
    rfl
  · rw [hs1, if_neg hcond]
    show cleanValue (.str (pyStrip s)) = some (pyStrip s)
    show cleanChars (pyStrip s) = some (pyStrip s)
    simp only [cleanChars]
    rw [pyStrip_idem, hfil _ hsub, if_neg hcond]

/-- C9 witness: the amended idempotence at the concrete string `"a"`. -/
theorem clean_idempotent_witness :
    (cleanValue (.str ['a'])).bind (fun t => cleanValue (.str t)) =
      cleanValue (.str ['a']) :=
  clean_idempotent_no_quote_backslash ['a'] (by decide) (by decide)

/-! Claim C3: the multiple-choice transform on present values. -/

/-- C3, counterexample: the claim says the present number `0` yields the
sequence `["0"]`, but `_process_multiple_choice` begins with Python
truthiness (`if not value`), and `0` is falsy, so the code returns null. -/
theorem multiple_choice_zero_counterexample :
    processMultipleChoice (.int 0) = none ∧
      processMultipleChoice (.int 0) ≠ some [['0']] := by decide

/-- C3, amended: for every raw value that is truthy in Python's sense
(in particular any present value other than the number `0` and the empty
string), the transform splits the textual form on `;`, cleans each part,
drops the parts that clean to null, and returns the survivors or null if
none survive; a present but falsy value returns null directly. -/
theorem multiple_choice_amended (v : CellValue) :
    (pyTruthy v = true → processMultipleChoice v = specMultipleChoice v) ∧
    (pyTruthy v = false → processMultipleChoice v = none) := by
  constructor
  · intro ht
    unfold processMultipleChoice specMultipleChoice
    rw [ht]
    simp only [Bool.not_true, Bool.false_eq_true, if_false]
    have hfun : ((fun part =>
        match part with
        | some s => if s.isEmpty = true then none else some s
        | none => none) ∘ fun part => cleanValue (.str part)) =
        fun part => cleanValue (CellValue.str part) := by
      funext p
      simp only [Function.comp]
      cases h : cleanValue (.str p) with
      | none => rfl
      | some s => simp [cleanValue_ne_empty h]
    rw [List.filterMap_map, hfun]
  · intro hf
    unfold processMultipleChoice
    rw [hf]
    rfl

/-- C3 witness: the amended statement at the concrete value `"a;b"`. -/
theorem multiple_choice_amended_witness :
    processMultipleChoice (.str "a;b".data) = specMultipleChoice (.str "a;b".data) :=
  (multiple_choice_amended (.str "a;b".data)).1 (by decide)

/-! Claim C8: splitting happens before cleaning. -/

/-- C8: the transform splits the uncleaned textual form and cleans each
part afterwards: `"a;b;;  c "` yields exactly `["a","b","c"]`, and on
`"nan;x"` the code (clean-per-part, which discards the `nan` part) differs
from the clean-before-split variant (which keeps it). -/
theorem multiple_choice_split_before_clean :
    processMultipleChoice (.str "a;b;;  c ".data) =
      some ["a".data, "b".data, "c".data] ∧
    processMultipleChoice (.str "nan;x".data) = some ["x".data] ∧
    cleanBeforeSplit (.str "nan;x".data) = some ["nan".data, "x".data] ∧
    cleanBeforeSplit (.str "nan;x".data) ≠ processMultipleChoice (.str "nan;x".data) := by
  decide

/-! Claim C10: a question normalizing to the empty string always resolves. -/

/-- C10: when the question text normalizes to the empty string and the
header sequence is non-empty, `resolve` never returns unresolved; if
neither earlier strategy matches, the containment strategy succeeds on the
first header, the empty string being a substring of every normalized
header. -/
theorem empty_normalized_always_resolves (q : Str) (headers : List Str)
    (hq : normalizeQuestionText q = []) (hne : headers ≠ []) :
    (findColumnForQuestion q headers).isSome = true ∧
    ((∀ c ∈ headers, matchesExact q c = false) →
      (∀ c ∈ headers, matchesNorm q c = false) →
      findColumnForQuestion q headers = headers.head?) := by
  obtain ⟨h0, t, rfl⟩ := List.exists_cons_of_ne_nil hne
  have hcont : matchesContain q h0 = true := by
    unfold matchesContain
    rw [hq]
    simp [isSubOf_nil]
  constructor
  · unfold findColumnForQuestion
    rcases hf1 : (h0 :: t).find? (matchesExact q) with _ | c1
    · rcases hf2 : (h0 :: t).find? (matchesNorm q) with _ | c2
      · rw [List.find?_cons_of_pos _ hcont]
        rfl
      · rfl
    · rfl
  · intro hex hnm
    have h1 : (h0 :: t).find? (matchesExact q) = none :=
      List.find?_eq_none.mpr fun x hx => by simp [hex x hx]
    have h2 : (h0 :: t).find? (matchesNorm q) = none :=
      List.find?_eq_none.mpr fun x hx => by simp [hnm x hx]
    unfold findColumnForQuestion
    rw [h1, h2, List.find?_cons_of_pos _ hcont]
    rfl

/-- C10 witness: the punctuation-only question `"?!"` resolves against the
single header `"Header"`. -/
theorem empty_normalized_always_resolves_witness :
    (findColumnForQuestion "?!".data ["Header".data]).isSome = true :=
  (empty_normalized_always_resolves "?!".data ["Header".data]
    (by decide) (by decide)).1

/-! Claim C1: the three matching strategies of column resolution. -/

lemma find?_of_decomp {α : Type} {p : α → Bool} :
    ∀ (pre post : List α) {b : α}, p b = true →
      (∀ c ∈ pre, p c = false) → (pre ++ b :: post).find? p = some b
  | [], _, b, hb, _ => by
    rw [List.nil_append]
    exact List.find?_cons_of_pos _ hb
  | a :: pre, post, b, hb, hpre => by
    rw [List.cons_append,
      List.find?_cons_of_neg _ (by simp [hpre a (List.mem_cons_self a pre)]),
      find?_of_decomp pre post hb fun c hc => hpre c (List.mem_cons_of_mem a hc)]

lemma decomp_of_find? {α : Type} {p : α → Bool} {l : List α} {b : α}
    (h : l.find? p = some b) :
    p b = true ∧ ∃ pre post, l = pre ++ b :: post ∧
      ∀ c ∈ pre, p c = false := by
  induction l with
  | nil => simp at h
  | cons a t ih =>
    by_cases hpa : p a = true
    · rw [List.find?_cons_of_pos _ hpa] at h
      injection h with h
      subst h
      exact ⟨hpa, [], t, rfl, by simp⟩
    · have hf : p a = false := by simpa using hpa
      rw [List.find?_cons_of_neg _ (by simp [hf])] at h
      obtain ⟨hb, pre, post, heq, hpre⟩ := ih h
      refine ⟨hb, a :: pre, post, by rw [List.cons_append, heq], ?_⟩
      intro c hc
      rcases List.mem_cons.mp hc with rfl | hc
      · exact hf
      · exact hpre c hc

lemma findColumnForQuestion_eq_or (q : Str) (headers : List Str) :
    findColumnForQuestion q headers =
      ((headers.find? (matchesExact q)).or
        ((headers.find? (matchesNorm q)).or
          (headers.find? (matchesContain q)))) := by
  unfold findColumnForQuestion
  cases headers.find? (matchesExact q) <;>
    cases headers.find? (matchesNorm q) <;> rfl

/-- C1: `resolve` returns a column exactly when one of the three
strategies — exact match on the trimmed header, then normalized equality,
then normalized containment — produces it, each strategy consulted only
when every one before it matches no header at all, and within a strategy
the returned header is the first in header order (every earlier header
fails that strategy).  In particular an exact match beats any normalized
or containment match, and ties go to the leftmost column. -/
theorem resolve_strategy_order (q col : Str) (headers : List Str) :
    findColumnForQuestion q headers = some col ↔
      ((matchesExact q col = true ∧
        ∃ pre post, headers = pre ++ col :: post ∧
          ∀ c ∈ pre, matchesExact q c = false) ∨
       ((∀ c ∈ headers, matchesExact q c = false) ∧
        matchesNorm q col = true ∧
        ∃ pre post, headers = pre ++ col :: post ∧
          ∀ c ∈ pre, matchesNorm q c = false) ∨
       ((∀ c ∈ headers, matchesExact q c = false) ∧
        (∀ c ∈ headers, matchesNorm q c = false) ∧
        matchesContain q col = true ∧
        ∃ pre post, headers = pre ++ col :: post ∧
          ∀ c ∈ pre, matchesContain q c = false)) := by
  rw [findColumnForQuestion_eq_or]
  cases h1 : headers.find? (matchesExact q) with
  | some c1 =>
    rw [Option.or_some]
    constructor
    · intro h
      injection h with h
      subst h
      obtain ⟨hp, pre, post, heq, hpre⟩ := decomp_of_find? h1
      exact Or.inl ⟨hp, pre, post, heq, hpre⟩
    · rintro (⟨hp, pre, post, heq, hpre⟩ | ⟨hall, -⟩ | ⟨hall, -⟩)
      · have h2 := find?_of_decomp pre post hp hpre
        rw [← heq, h1] at h2
        exact h2
      · have hn : headers.find? (matchesExact q) = none :=
          List.find?_eq_none.mpr fun x hx => by simp [hall x hx]
        simp [h1] at hn
      · have hn : headers.find? (matchesExact q) = none :=
          List.find?_eq_none.mpr fun x hx => by simp [hall x hx]
        simp [h1] at hn
  | none =>
    have hex : ∀ c ∈ headers, matchesExact q c = false := by
      intro c hc
      simpa using List.find?_eq_none.mp h1 c hc
    rw [Option.none_or]
    cases h2 : headers.find? (matchesNorm q) with
    | some c2 =>
      rw [Option.or_some]
      constructor
      · intro h
        injection h with h
        subst h
        obtain ⟨hp, pre, post, heq, hpre⟩ := decomp_of_find? h2
        exact Or.inr (Or.inl ⟨hex, hp, pre, post, heq, hpre⟩)
      · rintro (⟨hp, pre, post, heq, hpre⟩ | ⟨-, hp, pre, post, heq, hpre⟩ |
          ⟨-, hnm, -, -⟩)
        · have hcol : col ∈ headers := by
            rw [heq]
            exact List.mem_append_right pre (List.mem_cons_self col post)
          rw [hex col hcol] at hp
          cases hp
        · have h3 := find?_of_decomp pre post hp hpre
          rw [← heq, h2] at h3
          exact h3
        · have hn : headers.find? (matchesNorm q) = none :=
            List.find?_eq_none.mpr fun x hx => by simp [hnm x hx]
          simp [h2] at hn
    | none =>
      have hnm : ∀ c ∈ headers, matchesNorm q c = false := by
        intro c hc
        simpa using List.find?_eq_none.mp h2 c hc
      rw [Option.none_or]
      constructor
      · intro h3
        obtain ⟨hp, pre, post, heq, hpre⟩ := decomp_of_find? h3
        exact Or.inr (Or.inr ⟨hex, hnm, hp, pre, post, heq, hpre⟩)
      · rintro (⟨hp, pre, post, heq, hpre⟩ | ⟨-, hp, pre, post, heq, hpre⟩ |
          ⟨-, -, hp, pre, post, heq, hpre⟩)
        · have hcol : col ∈ headers := by
            rw [heq]
            exact List.mem_append_right pre (List.mem_cons_self col post)
          rw [hex col hcol] at hp
          cases hp
        · have hcol : col ∈ headers := by
            rw [heq]
            exact List.mem_append_right pre (List.mem_cons_self col post)
          rw [hnm col hcol] at hp
          cases hp
        · rw [heq]
          exact find?_of_decomp pre post hp hpre

/-- C1 witness: with headers `["A ", " Q1"]` and question `"Q1"`, the
characterization yields the trimmed exact match on the second header. -/
theorem resolve_strategy_order_witness :
    findColumnForQuestion "Q1".data ["A ".data, " Q1".data] =
      some " Q1".data :=
  (resolve_strategy_order "Q1".data " Q1".data
      ["A ".data, " Q1".data]).mpr
    (Or.inl ⟨by decide, ["A ".data], [], by decide, by decide⟩)

/-! Lemmas about the question loop of the engine. -/

lemma lookup_setField_self (fields : List (Str × JValue)) (k : Str) (v : JValue) :
    (setField fields k v).lookup k = some v := by
  induction fields with
  | nil => simp [setField, List.lookup]
  | cons p rest ih =>
    obtain ⟨k', v'⟩ := p
    by_cases h : k' = k
    · simp [setField, h, List.lookup]
    · have hne : (k' == k) = false := by simpa using h
      have hne2 : (k == k') = false := by simpa using fun e => h e.symm
      simp [setField, hne, List.lookup, hne2, ih]

lemma lookup_setField_ne (fields : List (Str × JValue)) {k k' : Str}
    (h : k ≠ k') (v : JValue) :
    (setField fields k' v).lookup k = fields.lookup k := by
  have hkk : (k == k') = false := by simpa using h
  induction fields with
  | nil => simp [setField, List.lookup, hkk]
  | cons p rest ih =>
    obtain ⟨k'', v''⟩ := p
    by_cases h2 : k'' = k'
    · subst h2
      have : (k == k'') = false := by simpa using h
      simp [setField, List.lookup, this]
    · have hne : (k'' == k') = false := by simpa using h2
      by_cases h3 : k = k''
      · subst h3
        simp [setField, hne, List.lookup]
      · have : (k == k'') = false := by simpa using h3
        simp [setField, hne, List.lookup, this, ih]

lemma processQuestion_eq (headers : List Str) (row : List CellValue)
    (fields : List (Str × JValue)) (q : Question) :
    processQuestion headers row fields q =
      match questionOutcome headers row q with
      | none => fields
      | some v => setField fields q.key v := by
  unfold processQuestion questionOutcome
  cases findColumnForQuestion q.text headers with
  | none => rfl
  | some col =>
    by_cases h : skipMetadataColumns col = true
    · simp [h]
    · simp [h]

lemma foldl_lookup_of_not_mem (headers : List Str) (row : List CellValue)
    {qs : List Question} {k : Str} (hk : k ∉ qs.map Question.key) :
    ∀ fields, (qs.foldl (processQuestion headers row) fields).lookup k =
      fields.lookup k := by
  induction qs with
  | nil => intro fields; rfl
  | cons q rest ih =>
    intro fields
    rw [List.map_cons, List.mem_cons] at hk
    push_neg at hk
    rw [List.foldl_cons, ih hk.2, processQuestion_eq]
    cases questionOutcome headers row q with
    | none => rfl
    | some v => exact lookup_setField_ne fields hk.1 v

lemma foldl_lookup_outcome_some (headers : List Str) (row : List CellValue)
    {qs : List Question} {q : Question} {v : JValue}
    (hnd : (qs.map Question.key).Nodup) (hq : q ∈ qs)
    (hout : questionOutcome headers row q = some v) :
    ∀ fields, (qs.foldl (processQuestion headers row) fields).lookup q.key =
      some v := by
  induction qs with
  | nil => cases hq
  | cons q' rest ih =>
    intro fields
    rw [List.map_cons, List.nodup_cons] at hnd
    rw [List.foldl_cons]
    rcases List.mem_cons.mp hq with rfl | hmem
    · rw [foldl_lookup_of_not_mem headers row hnd.1, processQuestion_eq, hout]
      exact lookup_setField_self fields q.key v
    · exact ih hnd.2 hmem _

lemma foldl_lookup_outcome_none (headers : List Str) (row : List CellValue)
    {qs : List Question} {q : Question}
    (hnd : (qs.map Question.key).Nodup) (hq : q ∈ qs)
    (hout : questionOutcome headers row q = none) :
    ∀ fields, fields.lookup q.key = none →
      (qs.foldl (processQuestion headers row) fields).lookup q.key = none := by
  induction qs with
  | nil => intro fields hf; exact hf
  | cons q' rest ih =>
    intro fields hf
    rw [List.map_cons, List.nodup_cons] at hnd
    rw [List.foldl_cons]
    rcases List.mem_cons.mp hq with rfl | hmem
    · rw [foldl_lookup_of_not_mem headers row hnd.1, processQuestion_eq, hout]
      exact hf
    · apply ih hnd.2 hmem
      have hne : q.key ≠ q'.key := by
        intro e
        exact hnd.1 (e ▸ List.mem_map_of_mem Question.key hmem)
      rw [processQuestion_eq]
      cases questionOutcome headers row q' with
      | none => exact hf
      | some w => rw [lookup_setField_ne fields hne w]; exact hf

lemma transformValue_missing (qtype : Str) :
    transformValue qtype .missing = .null := by
  have h1 : processMultipleChoice .missing = none := by decide
  have h2 : cleanValue .missing = none := rfl
  unfold transformValue
  rw [h1, h2]
  simp

/-! Claim C5: metadata columns are omitted, never null. -/

/-- C5: a schema question whose resolved column is a metadata column
(its lowercased header contains one of the indicator substrings) is absent
from every output record — the key is omitted entirely, for every row. -/
theorem metadata_question_omitted (questions : List Question)
    (headers : List Str) (rows : List (List CellValue))
    (q : Question) (col : Str)
    (hnd : (questions.map Question.key).Nodup) (hq : q ∈ questions)
    (hres : findColumnForQuestion q.text headers = some col)
    (hmeta : skipMetadataColumns col = true) :
    ∀ r ∈ transform questions headers rows, r.fields.lookup q.key = none := by
  intro r hr
  obtain ⟨⟨i, row⟩, hmem, rfl⟩ := List.mem_map.mp hr
  have hout : questionOutcome headers row q = none := by
    unfold questionOutcome
    rw [hres]
    simp [hmeta]
  exact foldl_lookup_outcome_none headers row hnd hq hout [] rfl

/-- C5 witness: with schema key `"q1"` resolved to header `"Email"` (a
metadata column), the single output record omits `"q1"`. -/
theorem metadata_question_omitted_witness :
    ((transform [⟨"q1".data, "Email".data, "open_text".data⟩]
        ["Email".data] [[CellValue.str "x".data]]).headD
      { respId := 0, fields := [] }).fields.lookup "q1".data = none :=
  metadata_question_omitted
    [⟨"q1".data, "Email".data, "open_text".data⟩] ["Email".data]
    [[CellValue.str "x".data]]
    ⟨"q1".data, "Email".data, "open_text".data⟩ "Email".data
    (by decide) (by decide) (by decide) (by decide) _ (by decide)

/-! Claim C6: a missing cell yields null for every question type. -/

/-- C6: when the row's cell at the resolved non-metadata column is
missing, the output record maps the question key to null, whatever the
declared question type is. -/
theorem missing_cell_yields_null (questions : List Question)
    (headers : List Str) (row : List CellValue) (index : Nat)
    (q : Question) (col : Str)
    (hnd : (questions.map Question.key).Nodup) (hq : q ∈ questions)
    (hres : findColumnForQuestion q.text headers = some col)
    (hmeta : skipMetadataColumns col = false)
    (hmiss : getCell headers row col = .missing) :
    (transformRow questions headers row index).fields.lookup q.key =
      some .null := by
  have hout : questionOutcome headers row q = some .null := by
    unfold questionOutcome
    rw [hres]
    simp [hmeta, hmiss, transformValue_missing]
  exact foldl_lookup_outcome_some headers row hnd hq hout []

/-- C6 witness: a missing cell under the resolved header `"Color"` of a
`multiple_choice` question yields null. -/
theorem missing_cell_yields_null_witness :
    (transformRow [⟨"q1".data, "Color".data, "multiple_choice".data⟩]
        ["Color".data] [CellValue.missing] 0).fields.lookup "q1".data =
      some .null :=
  missing_cell_yields_null
    [⟨"q1".data, "Color".data, "multiple_choice".data⟩] ["Color".data]
    [CellValue.missing] 0
    ⟨"q1".data, "Color".data, "multiple_choice".data⟩ "Color".data
    (by decide) (by decide) (by decide) (by decide) (by decide)

/-! Claim C7: an unresolved question degrades to null everywhere. -/

/-- C7: when no strategy finds a column for a schema question, the engine
still produces one record per row and maps that question key to null in
every record. -/
theorem unresolved_question_null_all_rows (questions : List Question)
    (headers : List Str) (rows : List (List CellValue)) (q : Question)
    (hnd : (questions.map Question.key).Nodup) (hq : q ∈ questions)
    (hres : findColumnForQuestion q.text headers = none) :
    (transform questions headers rows).length = rows.length ∧
    ∀ r ∈ transform questions headers rows,
      r.fields.lookup q.key = some .null := by
  constructor
  · simp [transform]
  · intro r hr
    obtain ⟨⟨i, row⟩, hmem, rfl⟩ := List.mem_map.mp hr
    have hout : questionOutcome headers row q = some .null := by
      unfold questionOutcome
      rw [hres]
    exact foldl_lookup_outcome_some headers row hnd hq hout []

/-! Claim C4: per-row re-resolution equals resolve-once-and-cache. -/

lemma lookup_resolveCache {questions : List Question} (headers : List Str)
    (hnd : (questions.map Question.key).Nodup) {q : Question}
    (hq : q ∈ questions) :
    (resolveCache questions headers).lookup q.key =
      some (findColumnForQuestion q.text headers) := by
  induction questions with
  | nil => cases hq
  | cons q' rest ih =>
    rw [List.map_cons, List.nodup_cons] at hnd
    rcases List.mem_cons.mp hq with rfl | hmem
    · simp only [resolveCache, List.map_cons]
      exact List.lookup_cons_self
    · have hne : (q.key == q'.key) = false := by
        have : q.key ≠ q'.key := by
          intro e
          exact hnd.1 (e ▸ List.mem_map_of_mem Question.key hmem)
        simpa using this
      simp only [resolveCache, List.map_cons, List.lookup, hne]
      exact ih hnd.2 hmem

/-- C4: the engine, which re-resolves each question's column inside the
row loop, produces exactly the output of the reference engine that
resolves every question once against the fixed header set, caches the
result by question key, and reuses it for all rows. -/
theorem transform_resolution_cached (questions : List Question)
    (headers : List Str) (rows : List (List CellValue))
    (hnd : (questions.map Question.key).Nodup) :
    transform questions headers rows =
      transformCached questions headers rows := by
  simp only [transform, transformCached]
  apply List.map_congr_left
  rintro ⟨i, row⟩ hx
  show transformRow questions headers row i = _
  unfold transformRow
  refine congrArg (OutputRecord.mk (i + 1))
    (List.foldl_ext _ _ _ fun fields q hqmem => ?_)
  unfold processQuestion processQuestionCached
  rw [lookup_resolveCache headers hnd hqmem]
  cases findColumnForQuestion q.text headers <;> rfl

/-- C4 witness: the two engines agree on a concrete one-question,
one-row table. -/
theorem transform_resolution_cached_witness :
    transform [⟨"k1".data, "Role".data, "open_text".data⟩] ["Role".data]
        [[CellValue.str "Dev".data]] =
      transformCached [⟨"k1".data, "Role".data, "open_text".data⟩]
        ["Role".data] [[CellValue.str "Dev".data]] :=
  transform_resolution_cached _ _ _ (by decide)

/-- C7 witness: the question `"Nothing Here"` matches no header in
`["Alpha"]`; the single record maps `"q1"` to null. -/
theorem unresolved_question_null_witness :
    ((transform [⟨"q1".data, "Nothing Here".data, "open_text".data⟩]
        ["Alpha".data] [[CellValue.str "v".data]]).headD
      { respId := 0, fields := [] }).fields.lookup "q1".data = some .null :=
  (unresolved_question_null_all_rows
    [⟨"q1".data, "Nothing Here".data, "open_text".data⟩] ["Alpha".data]
    [[CellValue.str "v".data]]
    ⟨"q1".data, "Nothing Here".data, "open_text".data⟩
    (by decide) (by decide) (by decide)).2 _ (by decide)
example :
    transform [⟨"q1".data, "Your Name?".data, "open_text".data⟩]
      ["Your Name?".data, "Email".data]
      [[.str "Alice".data, .str "a@x".data]] =
    [{ respId := 1, fields := [] }] := by decide
example :
    transform [⟨"fav".data, "Favorite colors".data, "multiple_choice".data⟩]
      ["Favorite colors".data]
      [[.str "Red; Blue; ".data]] =
    [{ respId := 1, fields := [("fav".data, .jarr ["Red".data, "Blue".data])] }] := by decide

end ExcelToJson
